import Mathlib

/-!
Verification of the deforestation-analysis pipeline: a shallow embedding of
the statistics aggregator (`app.py`) and of the satellite image processing
pipeline (`satellite_processor.py`), with theorems settling the specified
properties.  Machine floats are modelled by exact rationals (and reals where
a square root appears); Python `round(x, dp)` is modelled by rounding
`x * 10^dp` to the nearest integer.
-/

namespace Deforestation

/-! ## Rounding

Python's `round(x, dp)` rounds to `dp` decimal places.  We model it over an
ordered field with a floor structure via Mathlib's `round` (round to nearest
integer); all concrete inputs used below are tie-free, so the choice of tie
direction does not matter. -/

/-- Model of Python `round(x, dp)` on rationals. -/
def roundTo (dp : ℕ) (x : ℚ) : ℚ := (round (x * 10 ^ dp) : ℤ) / 10 ^ dp

/-! ## Statistics aggregator (`app.py`, `_update_processing_stats` and
`_read_processing_stats`) -/

/-- One entry of the `history` list kept in the processing-stats record
(`app.py` lines 71-76).  The ISO timestamp string is modelled by an opaque
natural number supplied by the caller (the code reads the wall clock). -/
structure HistEntry where
  filename : String
  deforestation_percentage : ℚ
  confidence : ℚ
  timestamp : ℕ
deriving DecidableEq, Repr

/-- The persisted processing-stats record (`app.py` lines 37-43). -/
structure ProcessingStats where
  total_processed : ℕ
  total_deforested_images : ℕ
  average_deforestation_percentage : ℚ
  average_confidence : ℚ
  history : List HistEntry
deriving DecidableEq, Repr

/-- The zeroed initial record returned by `_read_processing_stats` when the
stats file is absent or unreadable (`app.py` lines 37-43). -/
def initStats : ProcessingStats :=
  { total_processed := 0
    total_deforested_images := 0
    average_deforestation_percentage := 0
    average_confidence := 0
    history := [] }

/-- Python's `l[-n:]`: the last `n` elements of `l` (all of `l` when it is
shorter than `n`). -/
def lastN (n : ℕ) (l : List α) : List α := l.drop (l.length - n)

/-- `_update_processing_stats(filename, results)` (`app.py` lines 52-80):
recompute the running averages with rounding, bump the counters, append a
history entry and cap the history at the last 100 entries.  `def_pct` and
`conf` are the values extracted from the results dict, `timestamp` the wall
clock reading. -/
def updateProcessingStats (filename : String) (timestamp : ℕ)
    (def_pct conf : ℚ) (stats : ProcessingStats) : ProcessingStats :=
  let prev_total := stats.total_processed
  let new_total := prev_total + 1
  { total_processed := new_total
    average_deforestation_percentage :=
      roundTo 2 ((stats.average_deforestation_percentage * prev_total + def_pct) / new_total)
    average_confidence :=
      roundTo 3 ((stats.average_confidence * prev_total + conf) / new_total)
    total_deforested_images :=
      if 20 ≤ def_pct then stats.total_deforested_images + 1
      else stats.total_deforested_images
    history :=
      lastN 100 (stats.history ++
        [{ filename := filename
           deforestation_percentage := def_pct
           confidence := conf
           timestamp := timestamp }]) }

/-- The arguments of one `record()` call. -/
structure RecordCall where
  filename : String
  timestamp : ℕ
  def_pct : ℚ
  conf : ℚ
deriving DecidableEq, Repr

/-- The history entry a `record()` call appends. -/
def RecordCall.entry (c : RecordCall) : HistEntry :=
  { filename := c.filename
    deforestation_percentage := c.def_pct
    confidence := c.conf
    timestamp := c.timestamp }

/-- Fold a sequence of `record()` calls over a stats record. -/
def recordAll (calls : List RecordCall) (stats : ProcessingStats) : ProcessingStats :=
  calls.foldl
    (fun st c => updateProcessingStats c.filename c.timestamp c.def_pct c.conf st)
    stats

/-- The incremental running-average recurrence of the spec, carried out from
average `a` over `t` prior items: each step stores
`round((avg * t + v) / (t + 1), dp)` and bumps `t`. -/
def incrementalAvg (dp : ℕ) (a : ℚ) (t : ℕ) (vals : List ℚ) : ℚ × ℕ :=
  vals.foldl (fun p v => (roundTo dp ((p.1 * p.2 + v) / (p.2 + 1)), p.2 + 1)) (a, t)

/-- State of the persisted stats file as seen by `_read_processing_stats`
(`app.py` lines 30-43): missing, present but unreadable or unparseable, or
present with parseable content. -/
inductive StatsFileState where
  | absent
  | corrupt
  | parsed (s : ProcessingStats)

/-- `_read_processing_stats` (`app.py` lines 30-43): a parse or read failure
is swallowed and the zeroed initial record is returned, exactly as when the
file does not exist. -/
def readProcessingStats : StatsFileState → ProcessingStats
  | .absent => initStats
  | .corrupt => initStats
  | .parsed s => s

/-! ## Helper lemmas about `lastN` -/

theorem lastN_length_le (n : ℕ) (l : List α) : (lastN n l).length ≤ n := by
  simp only [lastN, List.length_drop]
  omega

theorem lastN_of_length_le {n : ℕ} {l : List α} (h : l.length ≤ n) : lastN n l = l := by
  simp [lastN, Nat.sub_eq_zero_of_le h]

theorem lastN_lastN_append (n : ℕ) (l m : List α) (hn : 1 ≤ n) :
    lastN n (lastN n l ++ m) = lastN n (l ++ m) := by
  by_cases h : l.length ≤ n
  · rw [lastN_of_length_le h]
  · have hln : n ≤ l.length := le_of_not_le h
    have hlen : (lastN n l).length = n := by
      simp only [lastN, List.length_drop]
      omega
    by_cases hm : m.length ≤ n
    · have h1 : (lastN n l).length + m.length - n ≤ (lastN n l).length := by omega
      have h2 : l.length + m.length - n ≤ l.length := by omega
      simp only [lastN, List.length_append, List.length_drop]
      rw [List.drop_append_of_le_length (by simp only [List.length_drop]; omega),
        List.drop_append_of_le_length (by omega), List.drop_drop]
      congr 2
      omega
    · have e1 : (lastN n l).length + m.length - n
          = (lastN n l).length + (m.length - n) := by omega
      have e2 : l.length + m.length - n = l.length + (m.length - n) := by omega
      simp only [lastN, List.length_append, List.length_drop] at e1 e2 ⊢
      rw [show l.length - (l.length - n) + m.length - n
            = (l.drop (l.length - n)).length + (m.length - n) by
          simp only [List.length_drop]; omega,
        List.drop_append, show l.length + m.length - n = l.length + (m.length - n) by omega,
        List.drop_append]

/-! ## General behaviour of `recordAll` -/

theorem recordAll_averages (calls : List RecordCall) (s : ProcessingStats) :
    (recordAll calls s).average_deforestation_percentage
        = (incrementalAvg 2 s.average_deforestation_percentage s.total_processed
            (calls.map (·.def_pct))).1
      ∧ (recordAll calls s).average_confidence
        = (incrementalAvg 3 s.average_confidence s.total_processed
            (calls.map (·.conf))).1
      ∧ (recordAll calls s).total_processed = s.total_processed + calls.length := by
  induction calls generalizing s with
  | nil => simp [recordAll, incrementalAvg]
  | cons c cs ih =>
    have h := ih (updateProcessingStats c.filename c.timestamp c.def_pct c.conf s)
    simp only [recordAll, List.foldl] at h ⊢
    simp only [List.map, incrementalAvg, List.foldl] at h ⊢
    refine ⟨?_, ?_, ?_⟩
    · rw [h.1]
      simp [updateProcessingStats, incrementalAvg]
    · rw [h.2.1]
      simp [updateProcessingStats, incrementalAvg]
    · rw [h.2.2]
      simp [updateProcessingStats]
      omega

theorem recordAll_history (calls : List RecordCall) (s : ProcessingStats)
    (h : s.history.length ≤ 100) :
    (recordAll calls s).history = lastN 100 (s.history ++ calls.map RecordCall.entry) := by
  induction calls generalizing s with
  | nil =>
    simp only [recordAll, List.foldl, List.map, List.append_nil]
    exact (lastN_of_length_le h).symm
  | cons c cs ih =>
    have h' : (updateProcessingStats c.filename c.timestamp c.def_pct c.conf s).history.length
        ≤ 100 := by
      simp only [updateProcessingStats]
      exact lastN_length_le _ _
    have := ih (updateProcessingStats c.filename c.timestamp c.def_pct c.conf s) h'
    simp only [recordAll, List.foldl] at this ⊢
    rw [this]
    simp only [updateProcessingStats, List.map]
    rw [lastN_lastN_append _ _ _ (by norm_num), List.append_assoc]
    rfl

/-! ## Claims about the statistics aggregator -/

/-- C1 (amended): after a sequence of `record()` calls on the zeroed record,
the stored averages equal exactly the values of the incremental recurrence
`avg_k = round((avg_(k-1) * (k-1) + v_k) / k, dp)` (dp = 2 for the
deforestation percentage, 3 for the confidence), and `total_processed`
equals the number of calls.  The stored average need not equal
`round(mean(v_1..v_n), dp)` — see the counterexample. -/
theorem average_follows_incremental_recurrence (calls : List RecordCall) :
    (recordAll calls initStats).average_deforestation_percentage
        = (incrementalAvg 2 0 0 (calls.map (·.def_pct))).1
      ∧ (recordAll calls initStats).average_confidence
        = (incrementalAvg 3 0 0 (calls.map (·.conf))).1
      ∧ (recordAll calls initStats).total_processed = calls.length := by
  have h := recordAll_averages calls initStats
  simpa [initStats] using h

/-- C1 (counterexample): for the five-call sequence with deforestation
percentages 25.47, 35.27, 55.14, 16.74, 15.19 the stored
`average_deforestation_percentage` is 29.57, while `round(mean, 2)` of the
same values is 29.56; no intermediate rounding is a tie, so the discrepancy
is independent of the tie-breaking rule.  This refutes the claim that the
stored average always equals the rounded mean. -/
theorem incremental_average_ne_round_mean :
    (recordAll
        [ { filename := "a", timestamp := 0, def_pct := 2547/100, conf := 0 }
        , { filename := "b", timestamp := 1, def_pct := 3527/100, conf := 0 }
        , { filename := "c", timestamp := 2, def_pct := 2757/50, conf := 0 }
        , { filename := "d", timestamp := 3, def_pct := 837/50, conf := 0 }
        , { filename := "e", timestamp := 4, def_pct := 1519/100, conf := 0 } ]
        initStats).average_deforestation_percentage
      ≠ roundTo 2 ((2547/100 + 3527/100 + 2757/50 + 837/50 + 1519/100) / 5) := by
  simp only [recordAll, List.foldl, updateProcessingStats, initStats, roundTo, round_eq]
  norm_num

/-- C2: starting from the zeroed record, the history after any sequence of
`record()` calls is exactly the last 100 appended entries in append order
(in particular, after 105 calls it is the last 100 of them), and its length
never exceeds 100. -/
theorem history_capped_last_100 (calls : List RecordCall) :
    (recordAll calls initStats).history = lastN 100 (calls.map RecordCall.entry)
      ∧ (recordAll calls initStats).history.length ≤ 100 := by
  have h := recordAll_history calls initStats (by simp [initStats])
  simp only [initStats, List.nil_append] at h
  exact ⟨h, h ▸ lastN_length_le _ _⟩

/-- C3: a `record()` call increments `total_processed` by exactly one
unconditionally, and increments `total_deforested_images` by exactly one
iff the recorded deforestation percentage is at least 20 (so exactly 20.0
counts and 19.99 does not). -/
theorem update_counters_increment (f : String) (t : ℕ) (v c : ℚ) (s : ProcessingStats) :
    (updateProcessingStats f t v c s).total_processed = s.total_processed + 1
      ∧ (updateProcessingStats f t v c s).total_deforested_images
          = s.total_deforested_images + (if 20 ≤ v then 1 else 0)
      ∧ ((updateProcessingStats f t v c s).total_deforested_images
          = s.total_deforested_images + 1 ↔ 20 ≤ v)
      ∧ (updateProcessingStats f t 20 c s).total_deforested_images
          = s.total_deforested_images + 1
      ∧ (updateProcessingStats f t (1999/100) c s).total_deforested_images
          = s.total_deforested_images := by
  refine ⟨rfl, ?_, ?_, ?_, ?_⟩ <;>
    simp only [updateProcessingStats] <;>
    split_ifs with hv <;>
    simp_all <;>
    norm_num at hv ⊢

/-- C10: when the persisted statistics file exists but cannot be read or
parsed, `_read_processing_stats` returns, without raising, the zeroed
initial record — identical to the absent-file case — and a subsequent
`record()` call therefore restarts all accumulated statistics from zero. -/
theorem read_stats_corrupt_resets (f : String) (t : ℕ) (v c : ℚ) :
    readProcessingStats .corrupt = initStats
      ∧ readProcessingStats .corrupt = readProcessingStats .absent
      ∧ updateProcessingStats f t v c (readProcessingStats .corrupt)
          = updateProcessingStats f t v c initStats
      ∧ (updateProcessingStats f t v c (readProcessingStats .corrupt)).total_processed = 1
      ∧ (updateProcessingStats f t v c (readProcessingStats .corrupt)).history
          = [{ filename := f, deforestation_percentage := v, confidence := c,
               timestamp := t }] := by
  refine ⟨rfl, rfl, rfl, rfl, ?_⟩
  simp [readProcessingStats, initStats, updateProcessingStats, lastN]

/-! ## Satellite image pipeline (`satellite_processor.py`)

A normalized image is a row-major list of rows of pixels, a pixel being its
list of channel values (the code reads channels 0, 1, 2 as R, G, B).  An
index array is a row-major matrix of rationals. -/

/-- A per-pixel index array. -/
abbrev Mat := List (List ℚ)

/-- A (normalized) image: rows of pixels, each pixel a list of channels. -/
abbrev Img := List (List (List ℚ))

/-- The division guard `1e-8` used by `calculate_vegetation_indices`. -/
def eps : ℚ := 1 / 100000000

/-- Red channel of a pixel: `image[:, :, 0]`. -/
def chR (px : List ℚ) : ℚ := px.getD 0 0

/-- Green channel of a pixel: `image[:, :, 1]`. -/
def chG (px : List ℚ) : ℚ := px.getD 1 0

/-- Blue channel of a pixel: `image[:, :, 2]`. -/
def chB (px : List ℚ) : ℚ := px.getD 2 0

/-- `ndvi = (g - r) / (g + r + 1e-8)` (`satellite_processor.py` line 84). -/
def ndviPx (px : List ℚ) : ℚ := (chG px - chR px) / (chG px + chR px + eps)

/-- `gndvi = (g - r) / (g + r + 1e-8)` (`satellite_processor.py` line 88;
textually identical to the NDVI formula in the source). -/
def gndviPx (px : List ℚ) : ℚ := (chG px - chR px) / (chG px + chR px + eps)

/-- `vari = (g - r) / (g + r - b + 1e-8)` (`satellite_processor.py` line 92). -/
def variPx (px : List ℚ) : ℚ := (chG px - chR px) / (chG px + chR px - chB px + eps)

/-- `greenness = g / (r + b + 1e-8)` (`satellite_processor.py` line 96). -/
def greennessPx (px : List ℚ) : ℚ := chG px / (chR px + chB px + eps)

/-- Apply a per-pixel formula across the image (numpy's elementwise
channel arithmetic). -/
def mapPixels (f : List ℚ → ℚ) (img : Img) : Mat :=
  img.map (fun row => row.map f)

/-- `image.shape[2]`: the channel count, read off the first pixel (numpy
arrays are rectangular, so all pixels agree). -/
def numChannels (img : Img) : ℕ := ((img.headD []).headD []).length

/-- `calculate_vegetation_indices` (`satellite_processor.py` lines 71-105):
with at least 3 channels it returns the four named index arrays, otherwise
the empty mapping.  The dict is modelled as an association list in insertion
order. -/
def calculateVegetationIndices (img : Img) : List (String × Mat) :=
  if 3 ≤ numChannels img then
    [("NDVI", mapPixels ndviPx img), ("GNDVI", mapPixels gndviPx img),
     ("VARI", mapPixels variPx img), ("Greenness", mapPixels greennessPx img)]
  else []

/-- Arithmetic mean of a list of rationals (`np.mean`); `0` on the empty
list, matching the total rational division by zero. -/
def meanQ (l : List ℚ) : ℚ := l.sum / l.length

/-- Population variance of a list of rationals (the square of `np.std`). -/
def popVarQ (l : List ℚ) : ℚ := ((l.map (fun x => (x - meanQ l) ^ 2)).sum) / l.length

/-- `np.std`: population standard deviation, as a real number. -/
noncomputable def npStd (l : List ℚ) : ℝ := Real.sqrt ((popVarQ l : ℚ) : ℝ)

/-- Model of Python `round(x, dp)` on reals (used for the confidence,
which involves a square root). -/
noncomputable def roundToR (dp : ℕ) (x : ℝ) : ℝ := (round (x * 10 ^ dp) : ℤ) / 10 ^ dp

/-- The full classification result dict built by `detect_deforestation`
(`satellite_processor.py` lines 136-143). -/
structure ClassificationResult where
  deforestation_percentage : ℚ
  forest_percentage : ℚ
  confidence : ℝ
  total_pixels : ℕ
  forest_pixels : ℕ
  deforested_pixels : ℕ

/-- The body of the NDVI branch of `detect_deforestation`
(`satellite_processor.py` lines 118-143): count pixels above the forest
threshold 0.3 and below the deforested threshold 0.1, convert to rounded
percentages, and clamp `1 - std(ndvi)` to `[0.5, 0.95]` before rounding to
3 decimals. -/
noncomputable def classifyNDVI (ndvi : Mat) : ClassificationResult :=
  let vals := ndvi.flatten
  let forest_pixels := vals.countP (fun x => decide ((3 : ℚ)/10 < x))
  let deforested_pixels := vals.countP (fun x => decide (x < (1 : ℚ)/10))
  let total_pixels := vals.length
  let deforestation_percentage := (deforested_pixels : ℚ) / (total_pixels : ℚ) * 100
  let forest_percentage := (forest_pixels : ℚ) / (total_pixels : ℚ) * 100
  let confidence := min 0.95 (max 0.5 (1 - npStd vals))
  { deforestation_percentage := roundTo 2 deforestation_percentage
    forest_percentage := roundTo 2 forest_percentage
    confidence := roundToR 3 confidence
    total_pixels := total_pixels
    forest_pixels := forest_pixels
    deforested_pixels := deforested_pixels }

/-- Outcome of `detect_deforestation`: either the degenerate two-key dict
`{"deforestation_percentage": 0, "confidence": 0}` or a full result. -/
inductive DetectionOutcome where
  | degenerate
  | ok (r : ClassificationResult)

/-- `detect_deforestation` (`satellite_processor.py` lines 111-148): an
empty index mapping, or a mapping without the `NDVI` key, yields the
degenerate result; otherwise the NDVI array is classified. -/
noncomputable def detectDeforestation (indices : List (String × Mat)) : DetectionOutcome :=
  match indices with
  | [] => .degenerate
  | _ :: _ =>
    match indices.lookup "NDVI" with
    | some ndvi => .ok (classifyNDVI ndvi)
    | none => .degenerate

/-- Dictionary view of a detection outcome: the value stored under a given
key of the returned Python dict, `none` when the key is absent.  The
degenerate dict carries only its two keys. -/
noncomputable def DetectionOutcome.field : DetectionOutcome → String → Option ℝ
  | .degenerate, "deforestation_percentage" => some 0
  | .degenerate, "confidence" => some 0
  | .degenerate, _ => none
  | .ok r, "deforestation_percentage" => some (r.deforestation_percentage : ℝ)
  | .ok r, "forest_percentage" => some (r.forest_percentage : ℝ)
  | .ok r, "confidence" => some r.confidence
  | .ok r, "total_pixels" => some (r.total_pixels : ℝ)
  | .ok r, "forest_pixels" => some (r.forest_pixels : ℝ)
  | .ok r, "deforested_pixels" => some (r.deforested_pixels : ℝ)
  | .ok _, _ => none

/-! ## Helper lemmas for rounding bounds -/

theorem round_le_round {α : Type*} [LinearOrderedField α] [FloorRing α] {x y : α}
    (h : x ≤ y) : round x ≤ round y := by
  rw [round_eq, round_eq]
  exact Int.floor_le_floor (by linarith)

theorem roundTo_pct_mem (c t : ℕ) (h : c ≤ t) :
    0 ≤ roundTo 2 ((c : ℚ) / (t : ℚ) * 100)
      ∧ roundTo 2 ((c : ℚ) / (t : ℚ) * 100) ≤ 100 := by
  have hx1 : (c : ℚ) / (t : ℚ) * 100 ≤ 100 := by
    rcases Nat.eq_zero_or_pos t with ht | ht
    · subst ht; simp
    · have h1 : (c : ℚ) / (t : ℚ) ≤ 1 := by
        rw [div_le_one (by exact_mod_cast ht)]
        exact_mod_cast h
      nlinarith
  constructor
  · rw [roundTo]
    have h1 : (0 : ℤ) ≤ round ((c : ℚ) / (t : ℚ) * 100 * 10 ^ 2) := by
      have := round_le_round (x := (0 : ℚ)) (y := (c : ℚ) / (t : ℚ) * 100 * 10 ^ 2)
        (by positivity)
      simpa using this
    have h2 : (0 : ℚ) ≤ (round ((c : ℚ) / (t : ℚ) * 100 * 10 ^ 2) : ℤ) := by
      exact_mod_cast h1
    positivity
  · rw [roundTo, div_le_iff (by norm_num : (0 : ℚ) < 10 ^ 2)]
    have h2 : round ((c : ℚ) / (t : ℚ) * 100 * 10 ^ 2) ≤ 10000 := by
      have := round_le_round (x := (c : ℚ) / (t : ℚ) * 100 * 10 ^ 2) (y := (10000 : ℚ))
        (by nlinarith)
      simpa using this
    calc ((round ((c : ℚ) / (t : ℚ) * 100 * 10 ^ 2) : ℤ) : ℚ) ≤ 10000 := by exact_mod_cast h2
      _ = 100 * 10 ^ 2 := by norm_num

theorem roundToR_clamp_mem (x : ℝ) :
    (1/2 : ℝ) ≤ roundToR 3 (min 0.95 (max 0.5 x))
      ∧ roundToR 3 (min 0.95 (max 0.5 x)) ≤ 0.95 := by
  set y := min (0.95 : ℝ) (max 0.5 x) with hy
  have hy1 : (1/2 : ℝ) ≤ y :=
    le_min (by norm_num) (le_trans (by norm_num) (le_max_left 0.5 x))
  have hy2 : y ≤ 0.95 := min_le_left _ _
  have h500 : (500 : ℤ) ≤ round (y * 10 ^ 3) := by
    have := round_le_round (x := (500 : ℝ)) (y := y * 10 ^ 3) (by nlinarith)
    simpa using this
  have h950 : round (y * 10 ^ 3) ≤ 950 := by
    have := round_le_round (x := y * 10 ^ 3) (y := (950 : ℝ)) (by nlinarith)
    simpa using this
  constructor
  · rw [roundToR, le_div_iff (by norm_num : (0 : ℝ) < 10 ^ 3)]
    calc (1/2 : ℝ) * 10 ^ 3 = ((500 : ℤ) : ℝ) := by norm_num
      _ ≤ _ := by exact_mod_cast h500
  · rw [roundToR, div_le_iff (by norm_num : (0 : ℝ) < 10 ^ 3)]
    calc ((round (y * 10 ^ 3) : ℤ) : ℝ) ≤ ((950 : ℤ) : ℝ) := by exact_mod_cast h950
      _ = 0.95 * 10 ^ 3 := by norm_num

theorem detect_of_lookup_some {indices : List (String × Mat)} {ndvi : Mat}
    (h : indices.lookup "NDVI" = some ndvi) :
    detectDeforestation indices = .ok (classifyNDVI ndvi) := by
  cases indices with
  | nil => simp [List.lookup] at h
  | cons a l => simp [detectDeforestation, h]

/-! ## Claims about the classifier -/

/-- C4 (amended): whenever the vegetation-index mapping contains `NDVI`,
the classifier returns a full result whose percentages lie in `[0, 100]`,
whose confidence lies in `[0.5, 0.95]` and equals
`round(clamp(1 - std(NDVI), 0.5, 0.95), 3)` (the claim's clamp value, but
additionally rounded to 3 decimals — see the counterexample), and whose
`total_pixels` is the pixel count of the NDVI array. -/
theorem classifier_result_bounds (indices : List (String × Mat)) (ndvi : Mat)
    (h : indices.lookup "NDVI" = some ndvi) :
    detectDeforestation indices = .ok (classifyNDVI ndvi)
      ∧ 0 ≤ (classifyNDVI ndvi).deforestation_percentage
      ∧ (classifyNDVI ndvi).deforestation_percentage ≤ 100
      ∧ 0 ≤ (classifyNDVI ndvi).forest_percentage
      ∧ (classifyNDVI ndvi).forest_percentage ≤ 100
      ∧ (1/2 : ℝ) ≤ (classifyNDVI ndvi).confidence
      ∧ (classifyNDVI ndvi).confidence ≤ 0.95
      ∧ (classifyNDVI ndvi).confidence
          = roundToR 3 (min 0.95 (max 0.5 (1 - npStd ndvi.flatten)))
      ∧ (classifyNDVI ndvi).total_pixels = ndvi.flatten.length := by
  have hd := roundTo_pct_mem (ndvi.flatten.countP (fun x => decide (x < (1 : ℚ)/10)))
    ndvi.flatten.length (List.countP_le_length _)
  have hf := roundTo_pct_mem (ndvi.flatten.countP (fun x => decide ((3 : ℚ)/10 < x)))
    ndvi.flatten.length (List.countP_le_length _)
  have hc := roundToR_clamp_mem (1 - npStd ndvi.flatten)
  exact ⟨detect_of_lookup_some h, hd.1, hd.2, hf.1, hf.2, hc.1, hc.2, rfl, rfl⟩

/-- C4 (counterexample): on the NDVI array `[[0.2, -0.0468]]` the standard
deviation is exactly 0.1234, so the clamp value is 0.8766, but the stored
confidence is its 3-decimal rounding 0.877.  This refutes the claim that
the stored confidence equals `clamp(1 - std(NDVI), 0.5, 0.95)` exactly. -/
theorem classifier_confidence_ne_unrounded_clamp :
    (classifyNDVI [[1/5, -117/2500]]).confidence
      ≠ min 0.95 (max 0.5 (1 - npStd ((([[1/5, -117/2500]] : Mat).flatten)))) := by
  have hvar : popVarQ ((([[1/5, -117/2500]] : Mat).flatten)) = 380689/25000000 := by
    simp [Mat, popVarQ, meanQ, List.flatten]
    norm_num
  have hstd : npStd ((([[1/5, -117/2500]] : Mat).flatten)) = 617/5000 := by
    rw [npStd, hvar]
    have hc : ((380689/25000000 : ℚ) : ℝ) = (617/5000 : ℝ) ^ 2 := by
      push_cast
      norm_num
    rw [hc, Real.sqrt_sq (by norm_num)]
  have hclamp : min (0.95 : ℝ) (max 0.5 (1 - 617/5000)) = 4383/5000 := by norm_num
  simp only [classifyNDVI, hstd, hclamp]
  rw [roundToR, round_eq]
  norm_num

/-- C5: the classifier counts as forest exactly the NDVI values strictly
above 0.3 and as deforested exactly those strictly below 0.1; consequently,
on an NDVI array whose values all lie strictly between 0.1 and 0.3, both
percentages are 0, and the two percentages do not sum to 100. -/
theorem thresholds_strict_and_gap (ndvi : Mat)
    (h : ∀ x ∈ ndvi.flatten, 1/10 < x ∧ x < 3/10) :
    detectDeforestation [("NDVI", ndvi)] = .ok (classifyNDVI ndvi)
      ∧ (classifyNDVI ndvi).forest_pixels
          = ndvi.flatten.countP (fun x => decide ((3 : ℚ)/10 < x))
      ∧ (classifyNDVI ndvi).deforested_pixels
          = ndvi.flatten.countP (fun x => decide (x < (1 : ℚ)/10))
      ∧ (classifyNDVI ndvi).deforestation_percentage = 0
      ∧ (classifyNDVI ndvi).forest_percentage = 0
      ∧ (classifyNDVI ndvi).deforestation_percentage
          + (classifyNDVI ndvi).forest_percentage ≠ 100 := by
  have hforest : ndvi.flatten.countP (fun x => decide ((3 : ℚ)/10 < x)) = 0 := by
    rw [List.countP_eq_zero]
    intro a ha
    simpa using not_lt.mpr (le_of_lt (h a ha).2)
  have hdef : ndvi.flatten.countP (fun x => decide (x < (1 : ℚ)/10)) = 0 := by
    rw [List.countP_eq_zero]
    intro a ha
    simpa using not_lt.mpr (le_of_lt (h a ha).1)
  have hz : roundTo 2 (0 : ℚ) = 0 := by
    rw [roundTo, round_eq]
    norm_num
  have hd0 : (classifyNDVI ndvi).deforestation_percentage = 0 := by
    simp only [classifyNDVI, hdef]
    simpa using hz
  have hf0 : (classifyNDVI ndvi).forest_percentage = 0 := by
    simp only [classifyNDVI, hforest]
    simpa using hz
  refine ⟨detect_of_lookup_some rfl, rfl, rfl, hd0, hf0, ?_⟩
  rw [hd0, hf0]
  norm_num

/-- C5 (witness): a concrete NDVI array with both values strictly inside
the threshold gap. -/
theorem thresholds_strict_and_gap_witness :
    (∀ x ∈ (([[1/5, 1/4]] : Mat).flatten), 1/10 < x ∧ x < 3/10)
      ∧ ((classifyNDVI [[1/5, 1/4]]).deforestation_percentage = 0
        ∧ (classifyNDVI [[1/5, 1/4]]).forest_percentage = 0) := by
  have h : ∀ x ∈ (([[1/5, 1/4]] : Mat).flatten), (1 : ℚ)/10 < x ∧ x < 3/10 := by
    intro x hx
    simp [Mat, List.flatten] at hx
    rcases hx with rfl | rfl <;> norm_num
  have := thresholds_strict_and_gap [[1/5, 1/4]] h
  exact ⟨h, this.2.2.2.1, this.2.2.2.2.1⟩

/-- C4 (witness): the bounds theorem applied to a concrete one-pixel NDVI
index mapping. -/
theorem classifier_result_bounds_witness :
    List.lookup "NDVI" [("NDVI", ([[1/2]] : Mat))] = some [[1/2]]
      ∧ detectDeforestation [("NDVI", [[1/2]])] = .ok (classifyNDVI [[1/2]])
      ∧ (classifyNDVI ([[1/2]] : Mat)).total_pixels
          = (([[1/2]] : Mat).flatten).length := by
  refine ⟨rfl, ?_, ?_⟩
  · exact (classifier_result_bounds [("NDVI", [[1/2]])] [[1/2]] rfl).1
  · exact (classifier_result_bounds [("NDVI", [[1/2]])] [[1/2]] rfl).2.2.2.2.2.2.2.2

/-! ## Claims about the vegetation-index calculator -/

theorem gndviPx_eq_ndviPx : gndviPx = ndviPx := rfl

theorem mapPixels_shape (f : List ℚ → ℚ) (img : Img) :
    (mapPixels f img).length = img.length
      ∧ (mapPixels f img).map List.length = img.map List.length := by
  constructor
  · simp [mapPixels]
  · simp [mapPixels, List.map_map, Function.comp_def]

/-- C6: with at least 3 channels, the `GNDVI` array equals the `NDVI` array
(both are computed by the formula `(G - R) / (G + R + 1e-8)`), and every
index array of the resulting set has the same spatial shape (row count and
per-row pixel counts) as the input image. -/
theorem gndvi_eq_ndvi_and_shapes (img : Img) (h : 3 ≤ numChannels img) :
    (calculateVegetationIndices img).lookup "GNDVI"
        = (calculateVegetationIndices img).lookup "NDVI"
      ∧ ∀ p ∈ calculateVegetationIndices img,
          p.2.length = img.length ∧ p.2.map List.length = img.map List.length := by
  rw [calculateVegetationIndices, if_pos h]
  constructor
  · rfl
  · intro p hp
    simp only [List.mem_cons, List.not_mem_nil, or_false] at hp
    rcases hp with rfl | rfl | rfl | rfl
    all_goals exact mapPixels_shape _ _

/-- C6 (witness): the shape-and-duplication theorem applied to a concrete
one-pixel three-channel image. -/
theorem gndvi_eq_ndvi_and_shapes_witness :
    3 ≤ numChannels ([[[2/5, 3/5, 1/5]]] : Img)
      ∧ (calculateVegetationIndices [[[2/5, 3/5, 1/5]]]).lookup "GNDVI"
          = (calculateVegetationIndices [[[2/5, 3/5, 1/5]]]).lookup "NDVI" := by
  exact ⟨by norm_num [numChannels],
    (gndvi_eq_ndvi_and_shapes [[[2/5, 3/5, 1/5]]] (by norm_num [numChannels])).1⟩

/-! ## Claims about the degenerate classifier result -/

/-- C7 (amended): when the vegetation-index mapping is empty or has no
`NDVI` key, the classifier returns, without raising, the degenerate dict
holding only `deforestation_percentage: 0` and `confidence: 0`; the other
`ClassificationResult` keys are absent from it (not zero). -/
theorem degenerate_result_fields (indices : List (String × Mat))
    (h : indices.lookup "NDVI" = none) :
    detectDeforestation indices = .degenerate
      ∧ DetectionOutcome.field (detectDeforestation indices) "deforestation_percentage"
          = some 0
      ∧ DetectionOutcome.field (detectDeforestation indices) "confidence" = some 0
      ∧ DetectionOutcome.field (detectDeforestation indices) "forest_percentage" = none
      ∧ DetectionOutcome.field (detectDeforestation indices) "total_pixels" = none
      ∧ DetectionOutcome.field (detectDeforestation indices) "forest_pixels" = none
      ∧ DetectionOutcome.field (detectDeforestation indices) "deforested_pixels" = none := by
  have hd : detectDeforestation indices = .degenerate := by
    cases indices with
    | nil => rfl
    | cons a l => simp [detectDeforestation, h]
  rw [hd]
  exact ⟨rfl, rfl, rfl, rfl, rfl, rfl, rfl⟩

/-- C7 (counterexample): the degenerate dict returned on an empty
vegetation-index set does not carry `forest_percentage` at all, refuting
the claim that all remaining result fields are zero. -/
theorem degenerate_missing_forest_percentage :
    DetectionOutcome.field (detectDeforestation []) "forest_percentage" ≠ some 0 := by
  have h : DetectionOutcome.field (detectDeforestation []) "forest_percentage" = none := rfl
  rw [h]
  exact fun hc => Option.noConfusion hc

/-- C7 (witness): the degenerate-result theorem applied to a concrete
non-empty mapping without an `NDVI` key. -/
theorem degenerate_result_fields_witness :
    List.lookup "NDVI" [("VARI", ([[0]] : Mat))] = none
      ∧ detectDeforestation [("VARI", [[0]])] = .degenerate
      ∧ DetectionOutcome.field (detectDeforestation [("VARI", [[0]])])
          "deforestation_percentage" = some 0 := by
  exact ⟨rfl, (degenerate_result_fields [("VARI", [[0]])] rfl).1,
    (degenerate_result_fields [("VARI", [[0]])] rfl).2.1⟩

/-! ## Preprocessor (`satellite_processor.py`, `preprocess_image`) -/

/-- A raw decoded image (`cv2.imread` output): either 3-dimensional (rows
of multi-channel pixels) or 2-dimensional (single-channel rows), with 8-bit
integer values. -/
inductive RawImage where
  | color (data : List (List (List ℕ)))
  | gray (data : List (List ℕ))

/-- `cv2.resize` to a `th × tw` target, modelled as deterministic
nearest-neighbour grid sampling (the spec declares the interpolation policy
an implementation choice; only determinism and the output size are
contractual).  Out-of-range samples fall back to `dflt`, which never
happens on a non-empty rectangular input. -/
def resizeNN (th tw : ℕ) (dflt : α) (img : List (List α)) : List (List α) :=
  (List.range th).map fun i =>
    (List.range tw).map fun j =>
      (img.getD (i * img.length / th) []).getD (j * (img.headD []).length / tw) dflt

/-- `np.expand_dims(image, axis=-1)`: wrap each scalar into a one-channel
pixel. -/
def expandDims (m : List (List ℕ)) : List (List (List ℕ)) :=
  m.map (fun row => row.map (fun v => [v]))

/-- `image.astype(np.float32) / 255.0` on one channel value. -/
def normalizePx (v : ℕ) : ℚ := (v : ℚ) / 255

/-- Normalization applied across a 3-dimensional image. -/
def normalizeImg (img : List (List (List ℕ))) : Img :=
  img.map (fun row => row.map (fun px => px.map normalizePx))

/-- `preprocess_image` (`satellite_processor.py` lines 52-65): resize to
the target size; a 2-dimensional (single-channel) image additionally gets a
trailing channel axis; finally scale into `[0, 1]` by dividing by 255. -/
def preprocessImage (th tw : ℕ) (raw : RawImage) : Img :=
  match raw with
  | .color d => normalizeImg (resizeNN th tw [] d)
  | .gray d => normalizeImg (expandDims (resizeNN th tw 0 d))

/-- The default target size of `preprocess_image`. -/
def targetSize : ℕ × ℕ := (512, 512)

/-- Well-formedness of a raw image: 8-bit values. -/
def RawImage.valsLe255 : RawImage → Prop
  | .color d => ∀ row ∈ d, ∀ px ∈ row, ∀ v ∈ px, v ≤ 255
  | .gray d => ∀ row ∈ d, ∀ v ∈ row, v ≤ 255

theorem getD_mem_or_eq (l : List α) (n : ℕ) (d : α) :
    l.getD n d ∈ l ∨ l.getD n d = d := by
  induction l generalizing n with
  | nil => right; cases n <;> rfl
  | cons a t ih =>
    cases n with
    | zero => left; exact List.mem_cons_self a t
    | succ m =>
      rcases ih m with hm | hm
      · left
        simp only [List.getD_cons_succ]
        exact List.mem_cons_of_mem a hm
      · right
        simpa using hm

theorem getD_map (f : α → β) (l : List α) (n : ℕ) (d : α) :
    (l.map f).getD n (f d) = f (l.getD n d) := by
  induction l generalizing n with
  | nil => cases n <;> rfl
  | cons a t ih =>
    cases n with
    | zero => rfl
    | succ m => simpa using ih m

theorem normalizePx_mem {v : ℕ} (hv : v ≤ 255) :
    0 ≤ normalizePx v ∧ normalizePx v ≤ 1 := by
  constructor
  · rw [normalizePx]
    positivity
  · rw [normalizePx, div_le_one (by norm_num : (0 : ℚ) < 255)]
    exact_mod_cast hv

/-- Appending the channel axis commutes with the resize: expanding after
resizing (as the source does) produces exactly the array obtained by
expanding first and resizing the expanded image. -/
theorem expandDims_resizeNN (th tw : ℕ) (d : List (List ℕ)) :
    expandDims (resizeNN th tw 0 d) = resizeNN th tw [0] (expandDims d) := by
  unfold expandDims resizeNN
  rw [List.map_map]
  apply List.map_congr_left
  intro i _
  simp only [Function.comp]
  rw [List.map_map]
  apply List.map_congr_left
  intro j _
  simp only [Function.comp]
  have hlen : (d.map (fun row => row.map (fun v => [v]))).length = d.length := by simp
  have hhead : ((d.map (fun row => row.map (fun v : ℕ => [v]))).headD []).length
      = (d.headD []).length := by
    cases d <;> simp
  rw [hlen, hhead]
  have h1 : (d.map (fun row => row.map (fun v : ℕ => [v]))).getD
        (i * d.length / th) ([] : List (List ℕ))
      = (d.getD (i * d.length / th) []).map (fun v => [v]) :=
    getD_map (fun row => row.map (fun v : ℕ => [v])) d (i * d.length / th) []
  rw [h1]
  exact (getD_map (fun v : ℕ => [v]) (d.getD (i * d.length / th) [])
    (j * (d.headD []).length / tw) 0).symm

theorem resizeNN_mem {th tw : ℕ} {dflt : α} {img : List (List α)} {row : List α}
    (h : row ∈ resizeNN th tw dflt img) :
    row.length = tw ∧ ∀ x ∈ row, (∃ r ∈ img, x ∈ r) ∨ x = dflt := by
  simp only [resizeNN, List.mem_map, List.mem_range] at h
  obtain ⟨i, hi, rfl⟩ := h
  refine ⟨by simp, ?_⟩
  intro x hx
  simp only [List.mem_map, List.mem_range] at hx
  obtain ⟨j, hj, rfl⟩ := hx
  rcases getD_mem_or_eq img (i * img.length / th) [] with h1 | h1
  · rcases getD_mem_or_eq (img.getD (i * img.length / th) [])
        (j * (img.headD []).length / tw) dflt with h2 | h2
    · exact Or.inl ⟨_, h1, h2⟩
    · exact Or.inr h2
  · rw [h1]
    exact Or.inr rfl

theorem normalizeImg_mem {img : List (List (List ℕ))} {row : List (List ℚ)}
    (h : row ∈ normalizeImg img) :
    ∃ r ∈ img, row = r.map (fun px => px.map normalizePx) := by
  simp only [normalizeImg, List.mem_map] at h
  obtain ⟨r, hr, rfl⟩ := h
  exact ⟨r, hr, rfl⟩

theorem expandDims_mem {m : List (List ℕ)} {row : List (List ℕ)}
    (h : row ∈ expandDims m) :
    ∃ r ∈ m, row = r.map (fun v => [v]) := by
  simp only [expandDims, List.mem_map] at h
  obtain ⟨r, hr, rfl⟩ := h
  exact ⟨r, hr, rfl⟩

/-- C8: preprocessing always yields exactly the target spatial size
(default 512×512) for any input size; all values lie in `[0, 1]` for any
8-bit raw image; a single-channel source yields one-channel pixels, and the
result coincides with resizing the channel-expanded image, so appending the
channel axis before or after the resize step is immaterial. -/
theorem preprocess_shape_and_range (raw : RawImage) (th tw : ℕ)
    (h255 : raw.valsLe255) :
    (preprocessImage th tw raw).length = th
      ∧ (∀ row ∈ preprocessImage th tw raw, row.length = tw)
      ∧ (∀ row ∈ preprocessImage th tw raw, ∀ px ∈ row, ∀ v ∈ px, 0 ≤ v ∧ v ≤ 1)
      ∧ (∀ d, raw = .gray d →
          ∀ row ∈ preprocessImage th tw raw, ∀ px ∈ row, px.length = 1)
      ∧ (∀ d, raw = .gray d →
          preprocessImage th tw raw = normalizeImg (resizeNN th tw [0] (expandDims d)))
      ∧ targetSize = (512, 512) := by
  refine ⟨?_, ?_, ?_, ?_, ?_, rfl⟩
  · cases raw <;> simp [preprocessImage, normalizeImg, expandDims, resizeNN]
  · intro row hrow
    cases raw with
    | color d =>
      simp only [preprocessImage] at hrow
      obtain ⟨r, hr, rfl⟩ := normalizeImg_mem hrow
      simpa using (resizeNN_mem hr).1
    | gray d =>
      simp only [preprocessImage] at hrow
      obtain ⟨r, hr, rfl⟩ := normalizeImg_mem hrow
      obtain ⟨r2, hr2, rfl⟩ := expandDims_mem hr
      simpa using (resizeNN_mem hr2).1
  · intro row hrow px hpx v hv
    cases raw with
    | color d =>
      simp only [preprocessImage] at hrow
      obtain ⟨r, hr, rfl⟩ := normalizeImg_mem hrow
      simp only [List.mem_map] at hpx
      obtain ⟨p, hp, rfl⟩ := hpx
      simp only [List.mem_map] at hv
      obtain ⟨w, hw, rfl⟩ := hv
      rcases (resizeNN_mem hr).2 p hp with ⟨r0, hr0, hp0⟩ | hp0
      · exact normalizePx_mem (h255 _ hr0 _ hp0 _ hw)
      · rw [hp0] at hw
        simp at hw
    | gray d =>
      simp only [preprocessImage] at hrow
      obtain ⟨r, hr, rfl⟩ := normalizeImg_mem hrow
      obtain ⟨r2, hr2, rfl⟩ := expandDims_mem hr
      rw [List.map_map] at hpx
      simp only [List.mem_map, Function.comp] at hpx
      obtain ⟨w, hw, rfl⟩ := hpx
      simp only [List.map_cons, List.map_nil, List.mem_singleton] at hv
      subst hv
      rcases (resizeNN_mem hr2).2 w hw with ⟨r0, hr0, hw0⟩ | hw0
      · exact normalizePx_mem (h255 _ hr0 _ hw0)
      · rw [hw0]
        exact normalizePx_mem (by norm_num)
  · rintro d rfl row hrow px hpx
    simp only [preprocessImage] at hrow
    obtain ⟨r, hr, rfl⟩ := normalizeImg_mem hrow
    obtain ⟨r2, hr2, rfl⟩ := expandDims_mem hr
    rw [List.map_map] at hpx
    simp only [List.mem_map, Function.comp] at hpx
    obtain ⟨w, hw, rfl⟩ := hpx
    rfl
  · rintro d rfl
    simp only [preprocessImage]
    rw [expandDims_resizeNN]

/-- C8 (witness): the preprocessor theorem applied to a concrete
single-pixel grayscale image and a 2×2 target. -/
theorem preprocess_shape_and_range_witness :
    RawImage.valsLe255 (.gray [[100]])
      ∧ (preprocessImage 2 2 (.gray [[100]])).length = 2
      ∧ preprocessImage 2 2 (.gray [[100]])
          = normalizeImg (resizeNN 2 2 [0] (expandDims [[100]])) := by
  have h : RawImage.valsLe255 (.gray [[100]]) := by
    intro row hrow v hv
    simp only [List.mem_singleton] at hrow
    subst hrow
    simp only [List.mem_singleton] at hv
    subst hv
    norm_num
  exact ⟨h, (preprocess_shape_and_range _ 2 2 h).1,
    (preprocess_shape_and_range _ 2 2 h).2.2.2.2.1 [[100]] rfl⟩

/-! ## Batch orchestrator (`satellite_processor.py`, `batch_process`)

File names are modelled as their character lists, since the extension check
lowercases the name; per-file processing (`process_satellite_image`, which
reads the file from disk and may raise) is abstracted as a function from the
file name to `Except`, an error value carrying the exception text. -/

/-- A file name, as its character sequence. -/
abbrev FileName := List Char

/-- `self.supported_formats` (`satellite_processor.py` line 28). -/
def supportedFormats : List FileName :=
  [".jpg".toList, ".jpeg".toList, ".png".toList, ".bmp".toList]

/-- The discovery test of `batch_process` (`satellite_processor.py` line
216): `any(filename.lower().endswith(fmt) for fmt in supported_formats)`. -/
def isSupportedFile (name : FileName) : Bool :=
  supportedFormats.any (fun fmt => List.isSuffixOf fmt (name.map Char.toLower))

/-- One entry of the batch report (`satellite_processor.py` lines 225-236). -/
structure BatchEntry where
  file : FileName
  result : Option ClassificationResult
  status : String
  error : Option String

/-- The batch report (`satellite_processor.py` line 238). -/
structure BatchReport where
  results : List BatchEntry
  total_files : ℕ

/-- The per-file try/except of the batch loop: a successful run yields a
`success` entry with the result, a raised error is caught and recorded as
an `error` entry holding the exception text. -/
noncomputable def processOutcomeEntry
    (proc : FileName → Except String ClassificationResult) (f : FileName) : BatchEntry :=
  match proc f with
  | .ok r => { file := f, result := some r, status := "success", error := none }
  | .error e => { file := f, result := none, status := "error", error := some e }

/-- `batch_process` (`satellite_processor.py` lines 208-238): discover the
files with a supported extension, process each one inside try/except, and
report one entry per discovered file together with the discovered count. -/
noncomputable def batchProcess (files : List FileName)
    (proc : FileName → Except String ClassificationResult) : BatchReport :=
  let supported := files.filter (fun f => isSupportedFile f)
  { results := supported.map (processOutcomeEntry proc)
    total_files := supported.length }

theorem processOutcomeEntry_file (proc : FileName → Except String ClassificationResult)
    (f : FileName) : (processOutcomeEntry proc f).file = f := by
  rw [processOutcomeEntry]
  cases proc f <;> rfl

/-- C9: the batch report counts exactly the files discovered with a
supported extension (case-insensitively), carries exactly one entry per
discovered file in discovery order, and every entry is either a `success`
entry holding the per-file result or — when processing that file raised —
an `error` entry holding the error text, so one failing file never aborts
the remaining ones. -/
theorem batch_report_complete (files : List FileName)
    (proc : FileName → Except String ClassificationResult) :
    (batchProcess files proc).total_files
        = (files.filter (fun f => isSupportedFile f)).length
      ∧ (batchProcess files proc).results.length = (batchProcess files proc).total_files
      ∧ (batchProcess files proc).results.map (fun e => e.file)
          = files.filter (fun f => isSupportedFile f)
      ∧ (∀ e ∈ (batchProcess files proc).results,
          (∃ r, proc e.file = .ok r ∧ e.status = "success"
              ∧ e.result = some r ∧ e.error = none)
          ∨ (∃ msg, proc e.file = .error msg ∧ e.status = "error"
              ∧ e.result = none ∧ e.error = some msg)) := by
  refine ⟨rfl, by simp [batchProcess], ?_, ?_⟩
  · simp only [batchProcess, List.map_map]
    have h : ∀ f ∈ files.filter (fun f => isSupportedFile f),
        ((fun e => e.file) ∘ processOutcomeEntry proc) f = id f := by
      intro f _
      simpa using processOutcomeEntry_file proc f
    rw [List.map_congr_left h, List.map_id]
  · intro e he
    simp only [batchProcess, List.mem_map] at he
    obtain ⟨f, _, rfl⟩ := he
    rw [processOutcomeEntry_file]
    rcases hp : proc f with msg | r
    · right
      refine ⟨msg, rfl, ?_, ?_, ?_⟩ <;> simp [processOutcomeEntry, hp]
    · left
      refine ⟨r, rfl, ?_, ?_, ?_⟩ <;> simp [processOutcomeEntry, hp]

/-- C9 (witness): a batch over the files `forest.JPG`, `notes.txt` and
`lake.png` with an always-raising processing step discovers the two
supported files (case-insensitively), reports both, and records each error
without aborting. -/
theorem batch_report_complete_witness :
    (batchProcess ["forest.JPG".toList, "notes.txt".toList, "lake.png".toList]
        (fun f => .error (String.mk f))).total_files = 2
      ∧ (batchProcess ["forest.JPG".toList, "notes.txt".toList, "lake.png".toList]
          (fun f => .error (String.mk f))).results.map (fun e => e.file)
        = ["forest.JPG".toList, "lake.png".toList] := by
  have h := batch_report_complete
    ["forest.JPG".toList, "notes.txt".toList, "lake.png".toList]
    (fun f => .error (String.mk f))
  constructor
  · rw [h.1]
    decide
  · rw [h.2.2.1]
    decide

end Deforestation
